import Mathlib

/-!
Shallow embedding of the incremental index-build manager of the rubber
repository (src/modules/index.py): the `Index` artifact state, its
directive interpreter `Index.command`, the staleness detector
`Index.run_needed`, the external invoker `Index.post_compile`, and the
registry-level dispatcher `Module.command` / `Module.post_compile`.

The file system is modelled as a map from path to optional byte contents;
the MD5 digest is modelled by an arbitrary digest function over the bytes
(`hashFn`), since the claims depend only on digest equality of contents.
The blocking process execution capability is a function from the command
line and the optional INDEXSTYLE overlay value to the exit status.
Logging is modelled as an explicit list of emitted messages of the form
level times text.
-/

/-- A file system: maps a path to the byte contents of the file, `none`
when the file does not exist. -/
abbrev FS := String → Option (List Nat)

/-- Model of `md5_file` from rubber.util, modelled with an arbitrary digest
function `hashFn` over the file bytes. Returns `none` when the file is
absent (the Python helper is only called on existing files). -/
def md5_file (hashFn : List Nat → Nat) (fs : FS) (name : String) : Option Nat :=
  (fs name).map hashFn

/-- Per-index artifact state, the fields set by `Index.__init__`. -/
structure Index where
  source : String
  target : String
  pbase : String
  md5 : Option Nat
  path : List String
  style : Option String
  opts : List String
deriving Repr, DecidableEq

/-- Embedding of `Index.__init__`: derive source and target paths from the base name
and the given suffixes, hash the source if it exists, seed the search
path with one empty entry plus the source path when nontrivial. -/
def Index.init (hashFn : List Nat → Nat) (fs : FS)
    (src_base src_path sourceSuffix targetSuffix : String) : Index :=
  { source := src_base ++ "." ++ sourceSuffix
    target := src_base ++ "." ++ targetSuffix
    pbase := src_base
    md5 :=
      if (fs (src_base ++ "." ++ sourceSuffix)).isSome then
        md5_file hashFn fs (src_base ++ "." ++ sourceSuffix)
      else none
    path := [""] ++ (if src_path ≠ "" ∧ src_path ≠ "." then [src_path] else [])
    style := none
    opts := [] }

/-- One log message: level and text. -/
abbrev LogMsg := Nat × String

/-- The loop body of the `order` directive in `Index.command`: one option
token updates the option list (or logs a warning). -/
def orderStep (x : Index × List LogMsg) (opt : String) : Index × List LogMsg :=
  if opt = "standard" then ({ x.1 with opts := [] }, x.2)
  else if opt = "german" then ({ x.1 with opts := x.1.opts ++ ["-g"] }, x.2)
  else if opt = "letter" then ({ x.1 with opts := x.1.opts ++ ["-l"] }, x.2)
  else (x.1, x.2 ++ [(1, "unknown option " ++ opt ++ " for makeidx.order")])

/-- Embedding of `Index.command`: per-artifact directive semantics. `eu` models
`os.path.expanduser`. Returns the updated artifact and the log. -/
def Index.command (eu : String → String) (i : Index)
    (cmd : String) (args : List String) : Index × List LogMsg :=
  if cmd = "order" then args.foldl orderStep (i, [])
  else if cmd = "path" then ({ i with path := i.path ++ args.map eu }, [])
  else if cmd = "style" then
    match args with
    | a :: _ :: _ => ({ i with style := some a }, [])
    | _ => (i, [])
  else (i, [])

/-- Result of `Index.run_needed`: the decision, the updated artifact
(the stored hash may have been advanced) and the log. -/
structure RNResult where
  needed : Bool
  idx : Index
  log : List LogMsg
deriving Repr, DecidableEq

/-- Embedding of `Index.run_needed`: decide whether makeindex has to be run, either
because the target does not exist or because the source has changed. -/
def Index.run_needed (hashFn : List Nat → Nat) (fs : FS) (i : Index) : RNResult :=
  if (fs i.target).isNone then
    { needed := true, idx := { i with md5 := md5_file hashFn fs i.source }, log := [] }
  else if i.md5.isNone then
    { needed := true, idx := { i with md5 := md5_file hashFn fs i.source },
      log := [(2, "the index file " ++ i.source ++ " is new")] }
  else
    -- the Python binds `new = md5_file(self.source)` once; the pure call
    -- is inlined here
    if i.md5 = md5_file hashFn fs i.source then
      { needed := false, idx := i,
        log := [(2, "the index " ++ i.source ++ " did not change")] }
    else
      { needed := true, idx := { i with md5 := md5_file hashFn fs i.source },
        log := [(2, "the index " ++ i.source ++ " has changed")] }

/-- The makeindex command line built by `Index.post_compile`. The
Python guard `if self.style:` tests string truthiness, so the "-s" flag
is added only when the style is set to a non-empty name. -/
def Index.cmdline (i : Index) : List String :=
  ["makeindex", "-o", i.target] ++ i.opts ++
    (match i.style with
     | some s => if s ≠ "" then ["-s", s] else []
     | none => []) ++ [i.pbase]

/-- The INDEXSTYLE environment overlay built by `Index.post_compile`:
`some` value when the search path differs from the single default empty
entry, `none` (empty overlay dictionary) otherwise. `ambient` is the
ambient value of INDEXSTYLE, the empty string when unset. -/
def Index.overlay (ambient : String) (i : Index) : Option String :=
  if i.path ≠ [""] then some (String.intercalate ":" (i.path ++ [ambient]))
  else none

/-- Result of `Index.post_compile`: the return value (0 success,
1 failure), the updated artifact, the must-recompile flag of the
document context, the external call made (command line and overlay),
and the log. -/
structure PCResult where
  ret : Nat
  idx : Index
  mustCompile : Bool
  call : Option (List String × Option String)
  log : List LogMsg
deriving Repr, DecidableEq

/-- Embedding of `Index.post_compile`: run makeindex if needed, with appropriate
options and environment. `exec` models `env.execute` (returns the exit
status), `mustCompile` is the incoming value of `env.must_compile`. -/
def Index.post_compile (hashFn : List Nat → Nat) (fs : FS)
    (exec : List String → Option String → Nat) (ambient : String)
    (mustCompile : Bool) (i : Index) : PCResult :=
  if (fs i.source).isNone then
    { ret := 0, idx := i, mustCompile := mustCompile, call := none,
      log := [(2, "strange, there is no " ++ i.source)] }
  else
    let rn := i.run_needed hashFn fs
    if !rn.needed then
      { ret := 0, idx := rn.idx, mustCompile := mustCompile, call := none,
        log := rn.log }
    else
      let cmd := rn.idx.cmdline
      let ov := rn.idx.overlay ambient
      if exec cmd ov ≠ 0 then
        { ret := 1, idx := rn.idx, mustCompile := mustCompile,
          call := some (cmd, ov),
          log := rn.log ++ [(0, "processing index " ++ rn.idx.source ++ "...")]
            ++ [(0, "the operation failed")] }
      else
        { ret := 0, idx := rn.idx, mustCompile := true,
          call := some (cmd, ov),
          log := rn.log ++ [(0, "processing index " ++ rn.idx.source ++ "...")] }

/-- The registry of indices, keyed by name in registration order. -/
abbrev Registry := List (String × Index)

/-- Test for `has_key` on the registry. -/
def hasKey (reg : Registry) (k : String) : Bool :=
  reg.any (fun p => p.1 = k)

/-- In-place mutation `indices[k].command(...)` on the registry: applies
`f` to the entry keyed `k`, leaves everything else unchanged. -/
def updateAssoc (reg : Registry) (k : String) (f : Index → Index) : Registry :=
  reg.map (fun p => if p.1 = k then (p.1, f p.2) else p)

/-- The `re_optarg` match of `Module.command`: `args[0]` must start with
an opening parenthesis, followed by characters that are not parentheses,
followed by a closing parenthesis; the group is the inner text.
Character codes 40 and 41 are the opening and closing parentheses. -/
def parseOptarg (s : String) : Option String :=
  match s.toList with
  | [] => none
  | c :: rest =>
    if c = Char.ofNat 40 then
      let body := rest.takeWhile (fun ch => ch ≠ Char.ofNat 40 && ch ≠ Char.ofNat 41)
      match rest.drop body.length with
      | c2 :: _ => if c2 = Char.ofNat 41 then some (String.mk body) else none
      | [] => none
    else none

/-- Embedding of `Module.command`: directive dispatch over the registry. When the
first argument matches the parenthesized filter form, the remaining
arguments are dispatched to each named artifact present in the registry;
when the argument list is empty, the directive is dispatched to every
artifact. (With a non-empty argument list whose head does not match the
filter form, the code dispatches to nothing.) -/
def Module.command (eu : String → String) (reg : Registry)
    (cmd : String) (args : List String) : Registry :=
  match args with
  | [] => reg.map (fun p => (p.1, (Index.command eu p.2 cmd []).1))
  | a :: rest =>
    match parseOptarg a with
    | some lst =>
      (lst.splitOn ",").foldl
        (fun r name =>
          if hasKey r name then
            updateAssoc r name (fun i => (Index.command eu i cmd rest).1)
          else r) reg
    | none => reg

/-- Result of `Module.post_compile`: the return value, the updated
registry, the must-recompile flag, and the external calls made, in
order. -/
structure MPCResult where
  ret : Nat
  reg : Registry
  mustCompile : Bool
  calls : List (List String × Option String)
deriving Repr, DecidableEq

/-- Embedding of `Module.post_compile`: iterate the registered artifacts, returning 1
at the first per-artifact failure, 0 when all succeed. -/
def Module.post_compile (hashFn : List Nat → Nat) (fs : FS)
    (exec : List String → Option String → Nat) (ambient : String)
    (mustCompile : Bool) : Registry → MPCResult
  | [] => { ret := 0, reg := [], mustCompile := mustCompile, calls := [] }
  | p :: rest =>
    let r := Index.post_compile hashFn fs exec ambient mustCompile p.2
    if r.ret ≠ 0 then
      { ret := 1, reg := (p.1, r.idx) :: rest, mustCompile := r.mustCompile,
        calls := r.call.toList }
    else
      let m := Module.post_compile hashFn fs exec ambient r.mustCompile rest
      { ret := m.ret, reg := (p.1, r.idx) :: m.reg, mustCompile := m.mustCompile,
        calls := r.call.toList ++ m.calls }

/-! ## Helper lemmas -/

/-- The staleness check `run_needed` only ever touches the stored hash: every other field of
the artifact is returned unchanged. -/
theorem run_needed_fields (hashFn : List Nat → Nat) (fs : FS) (i : Index) :
    ((i.run_needed hashFn fs).idx).source = i.source ∧
    ((i.run_needed hashFn fs).idx).target = i.target ∧
    ((i.run_needed hashFn fs).idx).pbase = i.pbase ∧
    ((i.run_needed hashFn fs).idx).path = i.path ∧
    ((i.run_needed hashFn fs).idx).style = i.style ∧
    ((i.run_needed hashFn fs).idx).opts = i.opts := by
  unfold Index.run_needed
  split
  · exact ⟨rfl, rfl, rfl, rfl, rfl, rfl⟩
  · split
    · exact ⟨rfl, rfl, rfl, rfl, rfl, rfl⟩
    · split
      · exact ⟨rfl, rfl, rfl, rfl, rfl, rfl⟩
      · exact ⟨rfl, rfl, rfl, rfl, rfl, rfl⟩

/-- The staleness check `run_needed` leaves the built command line and overlay unchanged. -/
theorem run_needed_cmdline (hashFn : List Nat → Nat) (fs : FS) (i : Index)
    (ambient : String) :
    ((i.run_needed hashFn fs).idx).cmdline = i.cmdline ∧
    ((i.run_needed hashFn fs).idx).overlay ambient = i.overlay ambient := by
  obtain ⟨h1, h2, h3, h4, h5, h6⟩ := run_needed_fields hashFn fs i
  constructor
  · simp [Index.cmdline, h2, h3, h5, h6]
  · simp [Index.overlay, h4]

/-- When the source exists and `run_needed` decides a run is needed, the
stored hash has been advanced to the digest of the current source bytes. -/
theorem run_needed_advances_md5 (hashFn : List Nat → Nat) (fs : FS) (i : Index)
    (bytes : List Nat) (hs : fs i.source = some bytes)
    (hn : (i.run_needed hashFn fs).needed = true) :
    ((i.run_needed hashFn fs).idx).md5 = some (hashFn bytes) := by
  by_cases ht : (fs i.target).isNone
  · simp [Index.run_needed, ht, md5_file, hs]
  · by_cases hm : i.md5.isNone
    · simp [Index.run_needed, ht, hm, md5_file, hs]
    · by_cases he : i.md5 = md5_file hashFn fs i.source
      · simp [Index.run_needed, ht, hm, he, md5_file, hs] at hn
      · simp [md5_file, hs] at he
        simp [Index.run_needed, ht, hm, he, md5_file, hs]

/-! ## Witness fixtures -/

/-- Digest function used in concrete witnesses. -/
def wHash : List Nat → Nat := List.sum

/-- File system used in concrete witnesses: the source `b.idx` holds the
bytes `[1, 2]`, the target `b.ind` exists. -/
def wFS : FS := fun name =>
  if name = "b.idx" then some [1, 2]
  else if name = "b.ind" then some [9]
  else none

/-- Concrete artifact whose stored hash matches the current source
bytes. -/
def w1i : Index :=
  { source := "b.idx", target := "b.ind", pbase := "b", md5 := some 3,
    path := [""], style := none, opts := [] }

/-- C1: for an artifact whose source file exists, the staleness check
follows the ordered rules: target absent means recompute-and-needs-run;
else a null stored hash means recompute-and-needs-run; else the
recomputed hash is compared with the stored one, equal leaving the hash
unchanged and reporting up-to-date, different overwriting the hash and
reporting needs-run. -/
theorem C1_staleness_rules (hashFn : List Nat → Nat) (fs : FS) (i : Index)
    (bytes : List Nat) (hs : fs i.source = some bytes) :
    (fs i.target = none →
      (i.run_needed hashFn fs).needed = true ∧
      (i.run_needed hashFn fs).idx = { i with md5 := some (hashFn bytes) }) ∧
    (fs i.target ≠ none → i.md5 = none →
      (i.run_needed hashFn fs).needed = true ∧
      (i.run_needed hashFn fs).idx = { i with md5 := some (hashFn bytes) }) ∧
    (∀ h, fs i.target ≠ none → i.md5 = some h →
      (hashFn bytes = h →
        (i.run_needed hashFn fs).needed = false ∧
        (i.run_needed hashFn fs).idx = i) ∧
      (hashFn bytes ≠ h →
        (i.run_needed hashFn fs).needed = true ∧
        (i.run_needed hashFn fs).idx = { i with md5 := some (hashFn bytes) })) := by
  refine ⟨?_, ?_, ?_⟩
  · intro ht
    simp [Index.run_needed, md5_file, hs, ht]
  · intro ht hm
    simp [Index.run_needed, md5_file, hs, ht, hm, Option.isNone_iff_eq_none]
  · intro h ht hm
    constructor
    · intro he
      simp [Index.run_needed, md5_file, hs, ht, hm, he, Option.isNone_iff_eq_none]
    · intro hne
      simp [Index.run_needed, md5_file, hs, ht, hm, Option.isNone_iff_eq_none,
        Ne.symm hne]

/-- C1 witness: on a concrete artifact with matching stored hash, the
check reports up-to-date and leaves the artifact unchanged. -/
theorem C1_staleness_rules_witness :
    (w1i.run_needed wHash wFS).needed = false ∧
    (w1i.run_needed wHash wFS).idx = w1i := by
  have h := C1_staleness_rules wHash wFS w1i [1, 2] (by decide)
  exact (h.2.2 3 (by decide) (by decide)).1 (by decide)

/-- File system used in witnesses where no file exists at all. -/
def wFSempty : FS := fun _ => none

/-- External execution that always fails with exit status 1. -/
def wExec1 : List String → Option String → Nat := fun _ _ => 1

/-- External execution that always succeeds with exit status 0. -/
def wExec0 : List String → Option String → Nat := fun _ _ => 0

/-- C4: for an artifact whose source file does not exist, `post_compile`
returns success (0), leaves the artifact and the must-recompile flag
unchanged, makes no external call, and only logs one diagnostic
message. -/
theorem C4_missing_source (hashFn : List Nat → Nat) (fs : FS)
    (exec : List String → Option String → Nat) (ambient : String)
    (mc : Bool) (i : Index) (hs : fs i.source = none) :
    i.post_compile hashFn fs exec ambient mc =
      { ret := 0, idx := i, mustCompile := mc, call := none,
        log := [(2, "strange, there is no " ++ i.source)] } := by
  simp [Index.post_compile, hs]

/-- C4 witness: on an empty file system, `post_compile` is a logged
no-op success. -/
theorem C4_missing_source_witness :
    w1i.post_compile wHash wFSempty wExec1 "" false =
      { ret := 0, idx := w1i, mustCompile := false, call := none,
        log := [(2, "strange, there is no " ++ w1i.source)] } :=
  C4_missing_source wHash wFSempty wExec1 "" false w1i rfl

/-- Unfolding of `post_compile` on a stale artifact whose source exists:
the branch taken depends only on the exit status of the external call. -/
theorem post_compile_stale (hashFn : List Nat → Nat) (fs : FS)
    (exec : List String → Option String → Nat) (ambient : String)
    (mc : Bool) (i : Index)
    (hs : ¬ (fs i.source).isNone = true)
    (hstale : (i.run_needed hashFn fs).needed = true) :
    i.post_compile hashFn fs exec ambient mc =
      (if exec i.cmdline (i.overlay ambient) ≠ 0 then
        { ret := 1, idx := (i.run_needed hashFn fs).idx, mustCompile := mc,
          call := some (i.cmdline, i.overlay ambient),
          log := (i.run_needed hashFn fs).log
            ++ [(0, "processing index " ++ i.source ++ "...")]
            ++ [(0, "the operation failed")] }
      else
        { ret := 0, idx := (i.run_needed hashFn fs).idx, mustCompile := true,
          call := some (i.cmdline, i.overlay ambient),
          log := (i.run_needed hashFn fs).log
            ++ [(0, "processing index " ++ i.source ++ "...")] }) := by
  obtain ⟨hc, ho⟩ := run_needed_cmdline hashFn fs i ambient
  obtain ⟨h1, _, _, _, _, _⟩ := run_needed_fields hashFn fs i
  simp only [Index.post_compile, hs, if_false, hstale, hc, ho, h1]
  simp

/-- C5 (amended): whenever the external tool is invoked, the command
line and the environment overlay have exactly the documented shape,
where the "-s" flag is present only when the style is set to a
non-empty name. -/
theorem C5_command_line (hashFn : List Nat → Nat) (fs : FS)
    (exec : List String → Option String → Nat) (ambient : String)
    (mc : Bool) (i : Index) (c : List String) (ov : Option String)
    (h : (i.post_compile hashFn fs exec ambient mc).call = some (c, ov)) :
    c = ["makeindex", "-o", i.target] ++ i.opts ++
      (match i.style with
       | some s => if s ≠ "" then ["-s", s] else []
       | none => []) ++ [i.pbase] ∧
    ov = (if i.path ≠ [""]
      then some (String.intercalate ":" (i.path ++ [ambient]))
      else none) := by
  by_cases hs : (fs i.source).isNone = true
  · simp [Index.post_compile, hs] at h
  · by_cases hn : (i.run_needed hashFn fs).needed = true
    · rw [post_compile_stale hashFn fs exec ambient mc i hs hn] at h
      by_cases hx : exec i.cmdline (i.overlay ambient) ≠ 0
      · rw [if_pos hx] at h
        simp only [PCResult.mk.injEq] at h ⊢
        obtain ⟨hce, hoe⟩ := Prod.mk.injEq .. ▸ Option.some.injEq .. ▸ h
        exact ⟨hce.symm, hoe.symm⟩
      · rw [if_neg hx] at h
        simp only [PCResult.mk.injEq] at h ⊢
        obtain ⟨hce, hoe⟩ := Prod.mk.injEq .. ▸ Option.some.injEq .. ▸ h
        exact ⟨hce.symm, hoe.symm⟩
    · have hn2 : (i.run_needed hashFn fs).needed = false := by
        cases hb : (i.run_needed hashFn fs).needed
        · rfl
        · exact absurd hb hn
      simp only [Index.post_compile, hs, if_false, hn2] at h
      simp at h

/-- File system where only the source `b.idx` exists (target absent). -/
def wFS2 : FS := fun name => if name = "b.idx" then some [1, 2] else none

/-- Concrete artifact with options, a style and a non-default search
path, used to exercise the command line and overlay. -/
def w5i : Index :=
  { source := "b.idx", target := "b.ind", pbase := "b", md5 := none,
    path := ["", "p1"], style := some "sty", opts := ["-g"] }

/-- C5 witness: on a concrete stale artifact the tool is invoked with
the documented command line and the INDEXSTYLE overlay. -/
theorem C5_command_line_witness :
    (["makeindex", "-o", "b.ind", "-g", "-s", "sty", "b"] : List String) =
      ["makeindex", "-o", w5i.target] ++ w5i.opts ++
        (match w5i.style with
         | some s => if s ≠ "" then ["-s", s] else []
         | none => []) ++ [w5i.pbase] ∧
    (some ":p1:" : Option String) =
      (if w5i.path ≠ [""]
        then some (String.intercalate ":" (w5i.path ++ [""]))
        else none) :=
  C5_command_line wHash wFS2 wExec0 "" false w5i
    ["makeindex", "-o", "b.ind", "-g", "-s", "sty", "b"] (some ":p1:") (by decide)

/-- Concrete artifact whose style is set to the empty string, reachable
through a style directive whose first token is empty. -/
def w5e : Index :=
  { source := "b.idx", target := "b.ind", pbase := "b", md5 := none,
    path := [""], style := some "", opts := [] }

/-- C5 counterexample: with the style set to the empty string the tool
is invoked (source exists, target absent), but the actual command line
omits the "-s" flag that the claimed shape includes for every set
style, because the Python truthiness guard rejects the empty name. -/
theorem C5_counterexample :
    (w5e.post_compile wHash wFS2 wExec0 "" false).call =
      some (["makeindex", "-o", "b.ind", "b"], none) ∧
    ¬ (["makeindex", "-o", "b.ind", "b"] =
      ["makeindex", "-o", w5e.target] ++ w5e.opts ++
        (match w5e.style with
         | some s => ["-s", s]
         | none => []) ++ [w5e.pbase]) := by
  decide

/-- A staleness check on an artifact whose source and target exist and
whose stored hash equals the digest of the current source bytes reports
up-to-date. -/
theorem run_needed_uptodate (hashFn : List Nat → Nat) (fs : FS) (j : Index)
    (bytes : List Nat) (hs : fs j.source = some bytes)
    (ht : fs j.target ≠ none) (hm : j.md5 = some (hashFn bytes)) :
    (j.run_needed hashFn fs).needed = false := by
  unfold Index.run_needed
  simp [ht, hm, md5_file, hs, Option.isNone_iff_eq_none]

/-- C2 (amended): for an artifact whose source exists and is judged
stale, a nonzero tool exit makes `post_compile` return failure, leaves
the must-recompile flag at its incoming value, and the stored hash
already equals the digest of the current source bytes, so that, when the
target file exists, an immediate retry without source edits is judged
up-to-date; a zero exit sets the must-recompile flag and returns
success. -/
theorem C2_tool_exit (hashFn : List Nat → Nat) (fs : FS)
    (exec : List String → Option String → Nat) (ambient : String)
    (mc : Bool) (i : Index) (bytes : List Nat)
    (hs : fs i.source = some bytes)
    (hstale : (i.run_needed hashFn fs).needed = true) :
    (exec i.cmdline (i.overlay ambient) ≠ 0 →
      (i.post_compile hashFn fs exec ambient mc).ret = 1 ∧
      (i.post_compile hashFn fs exec ambient mc).mustCompile = mc ∧
      (i.post_compile hashFn fs exec ambient mc).idx.md5 = some (hashFn bytes) ∧
      (fs i.target ≠ none →
        (((i.post_compile hashFn fs exec ambient mc).idx).run_needed
          hashFn fs).needed = false)) ∧
    (exec i.cmdline (i.overlay ambient) = 0 →
      (i.post_compile hashFn fs exec ambient mc).ret = 0 ∧
      (i.post_compile hashFn fs exec ambient mc).mustCompile = true) := by
  have hsne : ¬ (fs i.source).isNone = true := by simp [hs]
  have hpc := post_compile_stale hashFn fs exec ambient mc i hsne hstale
  have hmd5 := run_needed_advances_md5 hashFn fs i bytes hs hstale
  obtain ⟨hf1, hf2, _, _, _, _⟩ := run_needed_fields hashFn fs i
  constructor
  · intro hex
    have hidx : (i.post_compile hashFn fs exec ambient mc).idx =
        (i.run_needed hashFn fs).idx := by
      rw [hpc, if_pos hex]
    refine ⟨by rw [hpc, if_pos hex], by rw [hpc, if_pos hex],
      by rw [hidx]; exact hmd5, ?_⟩
    intro ht
    rw [hidx]
    have hs2 : fs ((i.run_needed hashFn fs).idx).source = some bytes := by
      rw [hf1]; exact hs
    have ht2 : fs ((i.run_needed hashFn fs).idx).target ≠ none := by
      rw [hf2]; exact ht
    exact run_needed_uptodate hashFn fs _ bytes hs2 ht2 hmd5
  · intro hex
    rw [hpc, if_neg (by simp [hex])]
    exact ⟨rfl, rfl⟩

/-- Concrete artifact whose stored hash is stale relative to `wFS`
(where both source and target exist). -/
def w2bi : Index :=
  { source := "b.idx", target := "b.ind", pbase := "b", md5 := some 99,
    path := [""], style := none, opts := [] }

/-- C2 witness: on a concrete stale artifact with existing target and a
failing tool, `post_compile` fails, the hash is advanced to the digest
of the current source, and the immediate retry is judged up-to-date. -/
theorem C2_tool_exit_witness :
    (w2bi.post_compile wHash wFS wExec1 "" false).ret = 1 ∧
    (w2bi.post_compile wHash wFS wExec1 "" false).mustCompile = false ∧
    (w2bi.post_compile wHash wFS wExec1 "" false).idx.md5 = some (wHash [1, 2]) ∧
    (((w2bi.post_compile wHash wFS wExec1 "" false).idx).run_needed
      wHash wFS).needed = false := by
  have h := (C2_tool_exit wHash wFS wExec1 "" false w2bi [1, 2]
    (by decide) (by decide)).1 (by decide)
  exact ⟨h.1, h.2.1, h.2.2.1, h.2.2.2 (by decide)⟩

/-- Concrete artifact judged stale because the target is absent in
`wFS2`. -/
def w2i : Index :=
  { source := "b.idx", target := "b.ind", pbase := "b", md5 := some 3,
    path := [""], style := none, opts := [] }

/-- C2 counterexample: with the target file absent and a failing tool,
`post_compile` returns failure, leaves the flag unset and stores the
digest of the current source, yet the immediate retry is judged
needs-run, not up-to-date, refuting the unconditional retry clause of
the claim. -/
theorem C2_counterexample :
    ¬ ((w2i.post_compile wHash wFS2 wExec1 "" false).ret = 1 ∧
       (w2i.post_compile wHash wFS2 wExec1 "" false).mustCompile = false ∧
       (w2i.post_compile wHash wFS2 wExec1 "" false).idx.md5 =
         some (wHash [1, 2]) ∧
       (((w2i.post_compile wHash wFS2 wExec1 "" false).idx).run_needed
         wHash wFS2).needed = false) := by
  decide

/-- Concrete artifact freshly registered with the default search path. -/
def w3i : Index :=
  { source := "b.idx", target := "b.ind", pbase := "b", md5 := none,
    path := [""], style := none, opts := [] }

/-- Concrete registry with one registered artifact. -/
def w3reg : Registry := [("default", w3i)]

/-- C3: at the failing input — a `path` directive whose argument list is
non-empty and whose first argument is not of the parenthesized filter
form — the registry-level dispatch leaves every artifact unchanged
(the directive is silently dropped), although a broadcast would have
extended the search path of the artifact. -/
theorem C3_plain_args_not_broadcast :
    Module.command id w3reg "path" ["here"] = w3reg ∧
    (Index.command id w3i "path" ["here"]).1.path = ["", "here"] := by
  constructor
  · rfl
  · rfl

/-- C7: the sequence of directives `order german`, `order letter`,
`order standard` leaves the options list empty for every artifact, and
each single `order` token acts as specified: `standard` clears the
options, `german` appends "-g", `letter` appends "-l", and any other
token leaves the options (and all other fields) unchanged. -/
theorem C7_order_directives (eu : String → String) :
    (∀ i : Index,
      ((Index.command eu
        ((Index.command eu
          ((Index.command eu i "order" ["german"]).1)
          "order" ["letter"]).1)
        "order" ["standard"]).1).opts = []) ∧
    (∀ (j : Index) (lg : List LogMsg),
      (orderStep (j, lg) "standard").1 = { j with opts := [] } ∧
      (orderStep (j, lg) "german").1 = { j with opts := j.opts ++ ["-g"] } ∧
      (orderStep (j, lg) "letter").1 = { j with opts := j.opts ++ ["-l"] }) ∧
    (∀ (j : Index) (lg : List LogMsg) (t : String),
      t ≠ "standard" → t ≠ "german" → t ≠ "letter" →
      (orderStep (j, lg) t).1 = j) := by
  refine ⟨fun i => rfl, fun j lg => ⟨rfl, rfl, rfl⟩, ?_⟩
  intro j lg t h1 h2 h3
  simp [orderStep, h1, h2, h3]

/-- C7 witness: an unrecognized `order` token leaves a concrete artifact
unchanged. -/
theorem C7_order_directives_witness :
    (orderStep (w1i, []) "bogus").1 = w1i :=
  (C7_order_directives id).2.2 w1i [] "bogus" (by decide) (by decide) (by decide)

/-- C9: a `style` directive with fewer than two argument tokens leaves
the artifact unchanged; with two or more tokens the first token becomes
the style name and the rest are ignored. -/
theorem C9_style_directive (eu : String → String) (i : Index)
    (args : List String) :
    (args.length < 2 → (Index.command eu i "style" args).1 = i) ∧
    (∀ a b rest, args = a :: b :: rest →
      (Index.command eu i "style" args).1 = { i with style := some a }) := by
  constructor
  · intro hlen
    cases args with
    | nil => rfl
    | cons a tl =>
      cases tl with
      | nil => rfl
      | cons b rest =>
        exfalso
        simp only [List.length_cons] at hlen
        omega
  · rintro a b rest rfl
    rfl

/-- C9 witness: on a concrete artifact, one token is a no-op and two
tokens store the first as the style. -/
theorem C9_style_directive_witness :
    (Index.command id w1i "style" ["only"]).1 = w1i ∧
    (Index.command id w1i "style" ["s1", "s2"]).1 =
      { w1i with style := some "s1" } :=
  ⟨(C9_style_directive id w1i ["only"]).1 (by decide),
   (C9_style_directive id w1i ["s1", "s2"]).2 "s1" "s2" [] rfl⟩

/-- One `order` token never touches any artifact field other than the
options list. -/
theorem orderStep_fields (x : Index × List LogMsg) (t : String) :
    (orderStep x t).1.source = x.1.source ∧
    (orderStep x t).1.target = x.1.target ∧
    (orderStep x t).1.pbase = x.1.pbase ∧
    (orderStep x t).1.md5 = x.1.md5 ∧
    (orderStep x t).1.path = x.1.path ∧
    (orderStep x t).1.style = x.1.style := by
  unfold orderStep
  split
  · exact ⟨rfl, rfl, rfl, rfl, rfl, rfl⟩
  · split
    · exact ⟨rfl, rfl, rfl, rfl, rfl, rfl⟩
    · split
      · exact ⟨rfl, rfl, rfl, rfl, rfl, rfl⟩
      · exact ⟨rfl, rfl, rfl, rfl, rfl, rfl⟩

/-- The whole `order` token loop never touches any artifact field other
than the options list. -/
theorem foldl_orderStep_fields (args : List String) (x : Index × List LogMsg) :
    (args.foldl orderStep x).1.source = x.1.source ∧
    (args.foldl orderStep x).1.target = x.1.target ∧
    (args.foldl orderStep x).1.pbase = x.1.pbase ∧
    (args.foldl orderStep x).1.md5 = x.1.md5 ∧
    (args.foldl orderStep x).1.path = x.1.path ∧
    (args.foldl orderStep x).1.style = x.1.style := by
  induction args generalizing x with
  | nil => exact ⟨rfl, rfl, rfl, rfl, rfl, rfl⟩
  | cons a tl ih =>
    obtain ⟨s1, s2, s3, s4, s5, s6⟩ := orderStep_fields x a
    obtain ⟨t1, t2, t3, t4, t5, t6⟩ := ih (orderStep x a)
    exact ⟨t1.trans s1, t2.trans s2, t3.trans s3, t4.trans s4,
      t5.trans s5, t6.trans s6⟩

/-- C10: one directive mutates at most one field of the artifact —
`order` only the options, `path` only the search path, `style` only the
style — and any other command name changes nothing; the source path,
target path, base name and stored hash are unchanged in every case. -/
theorem C10_command_frame (eu : String → String) (i : Index) (cmd : String)
    (args : List String) :
    ((Index.command eu i cmd args).1.source = i.source ∧
     (Index.command eu i cmd args).1.target = i.target ∧
     (Index.command eu i cmd args).1.pbase = i.pbase ∧
     (Index.command eu i cmd args).1.md5 = i.md5) ∧
    (cmd ≠ "order" → (Index.command eu i cmd args).1.opts = i.opts) ∧
    (cmd ≠ "path" → (Index.command eu i cmd args).1.path = i.path) ∧
    (cmd ≠ "style" → (Index.command eu i cmd args).1.style = i.style) ∧
    (cmd ≠ "order" → cmd ≠ "path" → cmd ≠ "style" →
      (Index.command eu i cmd args).1 = i) := by
  by_cases ho : cmd = "order"
  · subst ho
    have hf := foldl_orderStep_fields args (i, [])
    simp only [Index.command, if_pos rfl]
    refine ⟨⟨hf.1, hf.2.1, hf.2.2.1, hf.2.2.2.1⟩, ?_, ?_, ?_, ?_⟩
    · intro h; exact absurd rfl h
    · intro _; exact hf.2.2.2.2.1
    · intro _; exact hf.2.2.2.2.2
    · intro h; exact absurd rfl h
  · by_cases hp : cmd = "path"
    · subst hp
      refine ⟨⟨rfl, rfl, rfl, rfl⟩, fun _ => rfl, ?_, fun _ => rfl, ?_⟩
      · intro h; exact absurd rfl h
      · intro _ h; exact absurd rfl h
    · by_cases hy : cmd = "style"
      · subst hy
        have hsty :
            (Index.command eu i "style" args).1.source = i.source ∧
            (Index.command eu i "style" args).1.target = i.target ∧
            (Index.command eu i "style" args).1.pbase = i.pbase ∧
            (Index.command eu i "style" args).1.md5 = i.md5 ∧
            (Index.command eu i "style" args).1.path = i.path ∧
            (Index.command eu i "style" args).1.opts = i.opts := by
          cases args with
          | nil => exact ⟨rfl, rfl, rfl, rfl, rfl, rfl⟩
          | cons a tl =>
            cases tl with
            | nil => exact ⟨rfl, rfl, rfl, rfl, rfl, rfl⟩
            | cons b rest => exact ⟨rfl, rfl, rfl, rfl, rfl, rfl⟩
        refine ⟨⟨hsty.1, hsty.2.1, hsty.2.2.1, hsty.2.2.2.1⟩,
          fun _ => hsty.2.2.2.2.2, fun _ => hsty.2.2.2.2.1, ?_, ?_⟩
        · intro h; exact absurd rfl h
        · intro _ _ h; exact absurd rfl h
      · have hcmd : (Index.command eu i cmd args).1 = i := by
          simp [Index.command, ho, hp, hy]
        rw [hcmd]
        exact ⟨⟨rfl, rfl, rfl, rfl⟩, fun _ => rfl, fun _ => rfl,
          fun _ => rfl, fun _ _ _ => rfl⟩

/-- C10 witness: an unrecognized command name leaves a concrete artifact
entirely unchanged. -/
theorem C10_command_frame_witness :
    (Index.command id w1i "clean" ["x"]).1 = w1i :=
  (C10_command_frame id w1i "clean" ["x"]).2.2.2.2
    (by decide) (by decide) (by decide)

/-- Pointwise relation: a registry entry keeps its key and its search
path only grows. -/
def PathGrows (p q : String × Index) : Prop :=
  p.1 = q.1 ∧ p.2.path <+: q.2.path

/-- Pointwise relation: a registry entry keeps its key and its search
path exactly. -/
def PathKept (p q : String × Index) : Prop :=
  p.1 = q.1 ∧ p.2.path = q.2.path

/-- Reflexivity for pointwise registry relations. -/
theorem forallTwo_refl {α : Type} {R : α → α → Prop} (hR : ∀ a, R a a) :
    ∀ l : List α, List.Forall₂ R l l := by
  intro l
  induction l with
  | nil => exact List.Forall₂.nil
  | cons a tl ih => exact List.Forall₂.cons (hR a) ih

/-- Transitivity for pointwise registry relations. -/
theorem forallTwo_trans {α : Type} {R : α → α → Prop}
    (hR : ∀ a b c, R a b → R b c → R a c) :
    ∀ {l1 l2 l3 : List α}, List.Forall₂ R l1 l2 → List.Forall₂ R l2 l3 →
      List.Forall₂ R l1 l3 := by
  intro l1 l2 l3 h12 h23
  induction h12 generalizing l3 with
  | nil => cases h23; exact List.Forall₂.nil
  | cons hab htl ih =>
    cases h23 with
    | cons hbc htl2 => exact List.Forall₂.cons (hR _ _ _ hab hbc) (ih htl2)

/-- A map over a list is pointwise related to the list when each element
is related to its image. -/
theorem forallTwo_map {α : Type} {R : α → α → Prop} (f : α → α)
    (hf : ∀ a, R a (f a)) (l : List α) : List.Forall₂ R l (l.map f) := by
  induction l with
  | nil => exact List.Forall₂.nil
  | cons a tl ih => exact List.Forall₂.cons (hf a) ih

/-- A fold of pointwise-growing steps grows pointwise. -/
theorem forallTwo_foldl {α β : Type} {R : α → α → Prop}
    (hrefl : ∀ a, R a a) (htrans : ∀ a b c, R a b → R b c → R a c)
    (step : List α → β → List α)
    (hstep : ∀ r n, List.Forall₂ R r (step r n))
    (names : List β) :
    ∀ r : List α, List.Forall₂ R r (names.foldl step r) := by
  induction names with
  | nil => intro r; exact forallTwo_refl hrefl r
  | cons n tl ih =>
    intro r
    exact forallTwo_trans htrans (hstep r n) (ih (step r n))

/-- The per-artifact directive either leaves the search path alone or
appends the mapped arguments (only for the `path` command). -/
theorem command_path_cases (eu : String → String) (i : Index) (cmd : String)
    (args : List String) :
    ((Index.command eu i cmd args).1).path = i.path ∨
    ((Index.command eu i cmd args).1).path = i.path ++ args.map eu := by
  by_cases ho : cmd = "order"
  · subst ho
    simp only [Index.command, if_pos rfl]
    exact Or.inl (foldl_orderStep_fields args (i, [])).2.2.2.2.1
  · by_cases hp : cmd = "path"
    · subst hp
      exact Or.inr rfl
    · by_cases hy : cmd = "style"
      · subst hy
        cases args with
        | nil => exact Or.inl rfl
        | cons a tl =>
          cases tl with
          | nil => exact Or.inl rfl
          | cons b rest => exact Or.inl rfl
      · exact Or.inl (by simp [Index.command, ho, hp, hy])

/-- The existing search path entries stay in place as a prefix under
every directive. -/
theorem command_path_grows (eu : String → String) (i : Index) (cmd : String)
    (args : List String) :
    i.path <+: ((Index.command eu i cmd args).1).path := by
  rcases command_path_cases eu i cmd args with h | h
  · rw [h]
  · rw [h]
    exact List.prefix_append _ _

/-- The artifact coming out of `post_compile` is either the incoming one
or the one updated by the staleness check. -/
theorem post_compile_idx_cases (hashFn : List Nat → Nat) (fs : FS)
    (exec : List String → Option String → Nat) (ambient : String)
    (mc : Bool) (i : Index) :
    (i.post_compile hashFn fs exec ambient mc).idx = i ∨
    (i.post_compile hashFn fs exec ambient mc).idx =
      (i.run_needed hashFn fs).idx := by
  simp only [Index.post_compile]
  split
  · exact Or.inl rfl
  · split
    · exact Or.inr rfl
    · split
      · exact Or.inr rfl
      · exact Or.inr rfl

/-- The external invoker `post_compile` never touches the search path. -/
theorem post_compile_path (hashFn : List Nat → Nat) (fs : FS)
    (exec : List String → Option String → Nat) (ambient : String)
    (mc : Bool) (i : Index) :
    ((i.post_compile hashFn fs exec ambient mc).idx).path = i.path := by
  rcases post_compile_idx_cases hashFn fs exec ambient mc i with h | h
  · rw [h]
  · rw [h]
    exact (run_needed_fields hashFn fs i).2.2.2.1

/-- Registry-level directive dispatch only grows the search path of each
artifact and keeps every key. -/
theorem module_command_grows (eu : String → String) (reg : Registry)
    (cmd : String) (args : List String) :
    List.Forall₂ PathGrows reg (Module.command eu reg cmd args) := by
  have hrefl : ∀ p : String × Index, PathGrows p p :=
    fun p => ⟨rfl, List.prefix_refl _⟩
  have htrans : ∀ a b c : String × Index,
      PathGrows a b → PathGrows b c → PathGrows a c :=
    fun a b c h1 h2 => ⟨h1.1.trans h2.1, h1.2.trans h2.2⟩
  cases args with
  | nil =>
    simp only [Module.command]
    exact forallTwo_map _ (fun p => ⟨rfl, command_path_grows eu p.2 cmd []⟩) reg
  | cons a rest =>
    simp only [Module.command]
    cases parseOptarg a with
    | none => exact forallTwo_refl hrefl reg
    | some lst =>
      apply forallTwo_foldl hrefl htrans
      intro r name
      by_cases hk : hasKey r name
      · rw [if_pos hk]
        unfold updateAssoc
        apply forallTwo_map
        intro p
        by_cases hpn : p.1 = name
        · rw [if_pos hpn]
          exact ⟨rfl, command_path_grows eu p.2 cmd rest⟩
        · rw [if_neg hpn]
          exact hrefl p
      · rw [if_neg hk]
        exact forallTwo_refl hrefl r

/-- The registry-level post-pass hook keeps, for every artifact, its key and
search path. -/
theorem module_post_compile_path (hashFn : List Nat → Nat) (fs : FS)
    (exec : List String → Option String → Nat) (ambient : String) :
    ∀ (reg : Registry) (mc : Bool),
      List.Forall₂ PathKept reg
        ((Module.post_compile hashFn fs exec ambient mc reg).reg) := by
  intro reg
  induction reg with
  | nil => intro mc; exact List.Forall₂.nil
  | cons p rest ih =>
    intro mc
    simp only [Module.post_compile]
    split
    · exact List.Forall₂.cons
        ⟨rfl, (post_compile_path hashFn fs exec ambient mc p.2).symm⟩
        (forallTwo_refl (fun q => ⟨rfl, rfl⟩) rest)
    · exact List.Forall₂.cons
        ⟨rfl, (post_compile_path hashFn fs exec ambient mc p.2).symm⟩
        (ih _)

/-- C8: the search path only grows. Every directive leaves the existing
entries in place as a prefix, the `path` directive appends its
home-expanded tokens in order, the staleness check and the external
invoker never touch the search path, and the registry-level operations
preserve this pointwise for every artifact. -/
theorem C8_searchpath_monotone (hashFn : List Nat → Nat) (fs : FS)
    (exec : List String → Option String → Nat) (ambient : String)
    (eu : String → String) (mc : Bool) :
    (∀ (i : Index) (cmd : String) (args : List String),
      i.path <+: ((Index.command eu i cmd args).1).path) ∧
    (∀ (i : Index) (args : List String),
      ((Index.command eu i "path" args).1).path = i.path ++ args.map eu) ∧
    (∀ i : Index, ((i.run_needed hashFn fs).idx).path = i.path) ∧
    (∀ i : Index,
      ((i.post_compile hashFn fs exec ambient mc).idx).path = i.path) ∧
    (∀ (reg : Registry) (cmd : String) (args : List String),
      List.Forall₂ PathGrows reg (Module.command eu reg cmd args)) ∧
    (∀ (reg : Registry) (mc2 : Bool),
      List.Forall₂ PathKept reg
        ((Module.post_compile hashFn fs exec ambient mc2 reg).reg)) :=
  ⟨fun i cmd args => command_path_grows eu i cmd args,
   fun _ _ => rfl,
   fun i => (run_needed_fields hashFn fs i).2.2.2.1,
   fun i => post_compile_path hashFn fs exec ambient mc i,
   fun reg cmd args => module_command_grows eu reg cmd args,
   fun reg mc2 => module_post_compile_path hashFn fs exec ambient reg mc2⟩

/-- Short-circuiting of the registry-level post-pass hook over the
association-list model, for whatever fixed iteration order the list
realizes: when every artifact of a prefix succeeds and the next
artifact fails, the whole run returns failure with the remaining
artifacts untouched and no further external calls; and whenever the
run returns failure, some artifact did fail after a fully successful
prefix. The iteration order of the underlying Python 2 dictionary is
implementation-defined, so this lemma makes no claim about it. -/
theorem registry_short_circuit (hashFn : List Nat → Nat) (fs : FS)
    (exec : List String → Option String → Nat) (ambient : String) :
    (∀ (mc : Bool) (pre : Registry) (k : String) (i : Index) (post : Registry),
      (Module.post_compile hashFn fs exec ambient mc pre).ret = 0 →
      (Index.post_compile hashFn fs exec ambient
        (Module.post_compile hashFn fs exec ambient mc pre).mustCompile i).ret ≠ 0 →
      Module.post_compile hashFn fs exec ambient mc (pre ++ (k, i) :: post) =
        { ret := 1,
          reg := (Module.post_compile hashFn fs exec ambient mc pre).reg ++
            (k, (Index.post_compile hashFn fs exec ambient
              (Module.post_compile hashFn fs exec ambient mc pre).mustCompile
              i).idx) :: post,
          mustCompile := (Index.post_compile hashFn fs exec ambient
            (Module.post_compile hashFn fs exec ambient mc pre).mustCompile
            i).mustCompile,
          calls := (Module.post_compile hashFn fs exec ambient mc pre).calls ++
            (Index.post_compile hashFn fs exec ambient
              (Module.post_compile hashFn fs exec ambient mc pre).mustCompile
              i).call.toList }) ∧
    (∀ (mc : Bool) (reg : Registry),
      (Module.post_compile hashFn fs exec ambient mc reg).ret ≠ 0 →
      ∃ pre k i post,
        reg = pre ++ (k, i) :: post ∧
        (Module.post_compile hashFn fs exec ambient mc pre).ret = 0 ∧
        (Index.post_compile hashFn fs exec ambient
          (Module.post_compile hashFn fs exec ambient mc pre).mustCompile
          i).ret ≠ 0) := by
  constructor
  · intro mc pre
    induction pre generalizing mc with
    | nil =>
      intro k i post hpre hfail
      simp only [Module.post_compile] at hfail
      simp only [Module.post_compile, List.nil_append]
      rw [if_pos hfail]
    | cons p tl ih =>
      intro k i post hpre hfail
      by_cases hr : (Index.post_compile hashFn fs exec ambient mc p.2).ret ≠ 0
      · exfalso
        simp only [Module.post_compile, if_pos hr] at hpre
        exact absurd hpre (by decide)
      · simp only [List.cons_append, Module.post_compile, if_neg hr]
          at hpre hfail ⊢
        simp only [List.append_eq]
        rw [ih _ k i post hpre hfail]
        simp [List.append_assoc]
  · intro mc reg
    induction reg generalizing mc with
    | nil =>
      intro hret
      exact absurd rfl hret
    | cons p rest ih =>
      intro hret
      by_cases hr : (Index.post_compile hashFn fs exec ambient mc p.2).ret ≠ 0
      · refine ⟨[], p.1, p.2, rest, by simp, rfl, ?_⟩
        simpa using hr
      · simp only [Module.post_compile, if_neg hr] at hret
        obtain ⟨pre, k, i, post, heq, hpre, hfail⟩ := ih _ hret
        refine ⟨p :: pre, k, i, post, by rw [List.cons_append, ← heq], ?_, ?_⟩
        · simp only [Module.post_compile, if_neg hr]
          exact hpre
        · simp only [Module.post_compile, if_neg hr]
          exact hfail
